import Mathlib

/-! Gate encoder of the Clifford synthesis encoding.

A shallow embedding of `cliffordsynthesis/encoding/GateEncoder.hpp`
(class `cs::encoding::GateEncoder`) and of the operations it declares,
followed by the properties proved about them.
-/

namespace cs.encoding

/-! ## Gate kinds -/

/-- Modelled from the spec: the enumeration `qc::OpType` (declared in
`operations/OpType.hpp`, which is not among the sources). The seven
enumerators named by `SINGLE_QUBIT_GATES` are kept by name; every further
value of the enumeration is `other code`. -/
inductive OpType where
  | None
  | X
  | Y
  | Z
  | H
  | S
  | Sdag
  | other (code : Nat)
  deriving DecidableEq, Repr

/-- Failures: an out-of-range bounds-checked access (`std::out_of_range`),
and the abort of the extraction at a `(pos, qubit)` with no gate selected. -/
inductive Error where
  | outOfRange
  | noGateSelected (pos qubit : Nat)
  deriving DecidableEq, Repr

/-- The `static constexpr std::array<qc::OpType, 7> SINGLE_QUBIT_GATES`. -/
def SINGLE_QUBIT_GATES : List OpType :=
  [OpType.None, OpType.X, OpType.Y, OpType.Z, OpType.H, OpType.S, OpType.Sdag]

/-- The bounds-checked access `std::array::at`: the element at `i`, or the
out-of-range error. -/
def arrayAt {α : Type} (a : List α) (i : Nat) : Except Error α :=
  match a.get? i with
  | some x => Except.ok x
  | none => Except.error Error.outOfRange

/-- The loop of `gateToIndex`, started at loop counter `i`:
`for (; i < SINGLE_QUBIT_GATES.size(); ++i) if (SINGLE_QUBIT_GATES.at(i) == type) return i;`
followed by `return 0;`. -/
def gateToIndexLoop (type : OpType) (i : Nat) : Except Error Nat :=
  if i < SINGLE_QUBIT_GATES.length then
    match arrayAt SINGLE_QUBIT_GATES i with
    | Except.error e => Except.error e
    | Except.ok g => if g = type then Except.ok i else gateToIndexLoop type (i + 1)
  else
    Except.ok 0
termination_by SINGLE_QUBIT_GATES.length - i

/-- The function `GateEncoder::gateToIndex`: the loop started at `i = 0`. -/
def gateToIndex (type : OpType) : Except Error Nat :=
  gateToIndexLoop type 0

/-! ## Logic terms, models and the assertion sink -/

/-- Modelled from the spec: the Boolean terms of the solver backend
(`logicbase::LogicTerm`, declared in `LogicBlock/LogicBlock.hpp`, which is
not among the sources): Boolean variables and the connectives NOT, AND, OR
over them. -/
inductive LogicTerm where
  | var (id : Nat)
  | const (b : Bool)
  | neg (a : LogicTerm)
  | and (a b : LogicTerm)
  | or (a b : LogicTerm)
  deriving DecidableEq, Repr

/-- The type `logicbase::LogicVector`. -/
abbrev LogicVector := List LogicTerm

/-- The type `logicbase::LogicMatrix`. -/
abbrev LogicMatrix := List LogicVector

/-- The type `logicbase::LogicMatrix3D`. -/
abbrev LogicMatrix3D := List LogicMatrix

/-- Modelled from the spec: a model (`logicbase::Model`) is an assignment of
a truth value to every Boolean variable. -/
abbrev Model := Nat → Bool

/-- Truth value of a term under a model (`Model::getBoolValue`). -/
def LogicTerm.eval (m : Model) : LogicTerm → Bool
  | LogicTerm.var id => m id
  | LogicTerm.const b => b
  | LogicTerm.neg a => !(a.eval m)
  | LogicTerm.and a b => a.eval m && b.eval m
  | LogicTerm.or a b => a.eval m || b.eval m

/-- Modelled from the spec: the solver backend as an assertion sink
(`logicbase::LogicBlock`): the formulas asserted so far, in order. -/
structure LogicBlock where
  clauses : List LogicTerm
  deriving DecidableEq, Repr

/-- Assertion of one formula (`LogicBlock::assertFormula`). -/
def LogicBlock.assertFormula (lb : LogicBlock) (t : LogicTerm) : LogicBlock :=
  ⟨lb.clauses ++ [t]⟩

/-- A model satisfies a logic block when every asserted formula is true. -/
def LogicBlock.satisfiedBy (lb : LogicBlock) (m : Model) : Bool :=
  lb.clauses.all (fun t => t.eval m)

/-! ## The encoder -/

/-- The struct `GateEncoder::Variables`; both matrices are value-initialised
(`gS{}`, `gC{}`), that is, empty. -/
structure Variables where
  gS : LogicMatrix3D := []
  gC : LogicMatrix3D := []
  deriving DecidableEq, Repr

/-- The data members of `GateEncoder`: `N`, `T`, `vars`, `tvars`, `lb`. The
type of the tableau variables is a parameter. -/
structure GateEncoder (TableauVars : Type) where
  N : Nat
  T : Nat
  vars : Variables
  tvars : TableauVars
  lb : LogicBlock

/-- The constructor `GateEncoder::GateEncoder`: the member initialiser list
sets `N`, `T`, `tvars` and `lb`; `vars` keeps its default initialiser `{}`;
the body is empty. -/
def GateEncoder.new {TableauVars : Type} (nQubits timestepLimit : Nat)
    (tableauVars : TableauVars) (logicBlock : LogicBlock) :
    GateEncoder TableauVars :=
  ⟨nQubits, timestepLimit, {}, tableauVars, logicBlock⟩

/-- Entry `m[i][j][k]` of a three-dimensional matrix, when it exists. -/
def lookup3D (m : LogicMatrix3D) (i j k : Nat) : Option LogicTerm :=
  match m.get? i with
  | none => none
  | some plane =>
    match plane.get? j with
    | none => none
    | some row => row.get? k

/-- The variable matrices are fully populated: `gS` holds a variable for
every `pos < T`, `qubit < N` and gate-kind index, and `gC` holds a variable
for every `pos < T` and ordered pair `ctrl ≠ trgt` of qubits below `N`. -/
def GateEncoder.fullyPopulated {TableauVars : Type} (e : GateEncoder TableauVars) : Prop :=
  (∀ pos, pos < e.T → ∀ qubit, qubit < e.N →
    ∀ k, k < SINGLE_QUBIT_GATES.length → (lookup3D e.vars.gS pos qubit k).isSome = true) ∧
  (∀ pos, pos < e.T → ∀ ctrl, ctrl < e.N → ∀ trgt, trgt < e.N → ctrl ≠ trgt →
    (lookup3D e.vars.gC pos ctrl trgt).isSome = true)

instance {TableauVars : Type} (e : GateEncoder TableauVars) :
    Decidable e.fullyPopulated := by
  unfold GateEncoder.fullyPopulated
  infer_instance

/-! ## Constraint builders and `encodeGates` -/

/-- The constraint-building member functions of `GateEncoder` returning
`void`. -/
inductive Builder where
  | assertConsistency
  | assertGateConstraints
  | assertSingleQubitGateConstraints (pos : Nat)
  | assertTwoQubitGateConstraints (pos : Nat)
  | encodeSymmetryBreakingConstraints
  | assertSingleQubitGateSymmetryBreakingConstraints (pos : Nat)
  | assertTwoQubitGateSymmetryBreakingConstraints (pos : Nat)
  | assertSingleQubitGateOrderConstraints (pos qubit : Nat)
  | assertSingleQubitGateCancellationConstraints (pos qubit : Nat)
  | assertTwoQubitGateOrderConstraints (pos ctrl trgt : Nat)
  deriving DecidableEq, Repr

/-- An encoder specialisation: the bodies a derived class gives to the
virtual constraint builders, as transformers of the state `σ` they act on
(the derived object together with the logic block it asserts into). -/
structure Specialization (σ : Type) where
  assertConsistency : σ → σ
  assertGateConstraints : σ → σ
  assertSingleQubitGateConstraints : Nat → σ → σ
  assertTwoQubitGateConstraints : Nat → σ → σ
  encodeSymmetryBreakingConstraints : σ → σ
  assertSingleQubitGateSymmetryBreakingConstraints : Nat → σ → σ
  assertTwoQubitGateSymmetryBreakingConstraints : Nat → σ → σ
  assertSingleQubitGateOrderConstraints : Nat → Nat → σ → σ
  assertSingleQubitGateCancellationConstraints : Nat → Nat → σ → σ
  assertTwoQubitGateOrderConstraints : Nat → Nat → Nat → σ → σ

/-- A state together with the trace of the builders invoked so far. -/
structure Traced (σ : Type) where
  state : σ
  trace : List Builder

/-- One call statement: the builder is recorded in the trace and its body is
run on the state. -/
def invoke {σ : Type} (b : Builder) (body : σ → σ) (s : Traced σ) : Traced σ :=
  ⟨body s.state, s.trace ++ [b]⟩

/-- The member function `GateEncoder::encodeGates`:
`assertConsistency(); assertGateConstraints();`. -/
def encodeGates {σ : Type} (spec : Specialization σ) (s : Traced σ) : Traced σ :=
  let s1 := invoke Builder.assertConsistency spec.assertConsistency s
  invoke Builder.assertGateConstraints spec.assertGateConstraints s1

/-! ## Exactly-one constraints -/

/-- Modelled from the spec: the at-least-one constraint, the disjunction of
all variables of the vector. -/
def atLeastOne : LogicVector → LogicTerm
  | [] => LogicTerm.const false
  | v :: rest => LogicTerm.or v (atLeastOne rest)

/-- Modelled from the spec: the at-most-one constraint, the pairwise mutual
exclusion of the variables of the vector, one formula for each pair of
positions. -/
def atMostOne : LogicVector → List LogicTerm
  | [] => []
  | v :: rest =>
    rest.map (fun w => LogicTerm.neg (LogicTerm.and v w)) ++ atMostOne rest

/-- Modelled from the spec: `GateEncoder::assertExactlyOne` (declared in
`GateEncoder.hpp`; its body is not among the sources). It asserts into the
logic block of the encoder the at-least-one constraint and the at-most-one
constraint over the given vector. -/
def GateEncoder.assertExactlyOne {TableauVars : Type} (e : GateEncoder TableauVars)
    (vars : LogicVector) : GateEncoder TableauVars :=
  let lb1 := e.lb.assertFormula (atLeastOne vars)
  let lb2 := (atMostOne vars).foldl LogicBlock.assertFormula lb1
  ⟨e.N, e.T, e.vars, e.tvars, lb2⟩

/-- The formulas that `assertExactlyOne` adds to the logic block. -/
def exactlyOneFormulas (vars : LogicVector) : List LogicTerm :=
  atLeastOne vars :: atMostOne vars

/-- The number of variables of the vector that are true under the model. -/
def trueCount (m : Model) (vars : LogicVector) : Nat :=
  vars.countP (fun t => t.eval m)

/-! ## Collected-variable views -/

/-- Number of rows of the plane `m[pos]` (0 when there is no such plane). -/
def planeRows (m : LogicMatrix3D) (pos : Nat) : Nat :=
  match m.get? pos with
  | none => 0
  | some plane => plane.length

/-- Length of the row `m[pos][j]` (0 when there is no such row). -/
def rowLength (m : LogicMatrix3D) (pos j : Nat) : Nat :=
  match m.get? pos with
  | none => 0
  | some plane =>
    match plane.get? j with
    | none => 0
    | some row => row.length

/-- Modelled from the spec: `Variables::collectSingleQubitGateVariables`
(declared in `GateEncoder.hpp`; its body is not among the sources). It
appends to `vars` the single-qubit variables of `(pos, qubit)` across all
gate kinds. -/
def Variables.collectSingleQubitGateVariables (v : Variables) (pos qubit : Nat)
    (vars : LogicVector) : LogicVector :=
  vars ++ (List.range SINGLE_QUBIT_GATES.length).filterMap
    (fun k => lookup3D v.gS pos qubit k)

/-- Modelled from the spec: `Variables::collectTwoQubitGateVariables`
(declared in `GateEncoder.hpp`; its body is not among the sources). It
appends to `vars` the two-qubit variables of timestep `pos` in which `qubit`
plays the target role (`target = true`: the entries `gC[pos][other][qubit]`)
or the control role (`target = false`: the entries `gC[pos][qubit][other]`),
over the other qubits `other ≠ qubit`. -/
def Variables.collectTwoQubitGateVariables (v : Variables) (pos qubit : Nat)
    (target : Bool) (vars : LogicVector) : LogicVector :=
  if target then
    vars ++ (List.range (planeRows v.gC pos)).filterMap
      (fun other => if other = qubit then none else lookup3D v.gC pos other qubit)
  else
    vars ++ (List.range (rowLength v.gC pos qubit)).filterMap
      (fun other => if other = qubit then none else lookup3D v.gC pos qubit other)

/-! ## Extraction of the circuit from a model -/

/-- Modelled from the spec: the gate operations the output circuit sink
accepts, a single-qubit gate on a qubit or the two-qubit gate on an ordered
pair (control, target). -/
inductive Operation where
  | singleQubit (gate : OpType) (qubit : Nat)
  | twoQubit (ctrl trgt : Nat)
  deriving DecidableEq, Repr

/-- Modelled from the spec: the output circuit (`qc::QuantumComputation`),
an ordered sequence of gate operations that is only appended to. -/
structure QuantumComputation where
  nqubits : Nat
  ops : List Operation
  deriving DecidableEq, Repr

/-- Append of one operation to the circuit (`emplace_back`). -/
def QuantumComputation.emplace_back (qc : QuantumComputation) (op : Operation) :
    QuantumComputation :=
  ⟨qc.nqubits, qc.ops ++ [op]⟩

/-- Modelled from the spec: the part of `cs::Results` (declared in
`cliffordsynthesis/Results.hpp`, not among the sources) that extraction
writes: the two gate counts and the circuit. -/
structure Results where
  nSingleQubitGates : Nat
  nTwoQubitGates : Nat
  circuit : QuantumComputation
  deriving DecidableEq, Repr

/-- Truth value under the model of the entry `m[i][j][k]`; an entry that does
not exist is not true. -/
def entryTrue (model : Model) (m : LogicMatrix3D) (i j k : Nat) : Bool :=
  match lookup3D m i j k with
  | none => false
  | some t => t.eval model

/-- Modelled from the spec: the step of `extractSingleQubitGatesFromModel`
for one qubit. When no selection variable of `(pos, qubit)` is true (no
single-qubit kind variable and no two-qubit control or target variable)
extraction is aborted; otherwise the true single-qubit variable is looked
for and, unless it is the identity kind, the gate is appended to the circuit
and counted. -/
def GateEncoder.extractSingleQubitGate {TableauVars : Type} (e : GateEncoder TableauVars)
    (pos : Nat) (model : Model) (acc : QuantumComputation × Nat) (qubit : Nat) :
    Except Error (QuantumComputation × Nat) :=
  let selection :=
    e.vars.collectTwoQubitGateVariables pos qubit true
      (e.vars.collectTwoQubitGateVariables pos qubit false
        (e.vars.collectSingleQubitGateVariables pos qubit []))
  if selection.any (fun t => t.eval model) then
    match SINGLE_QUBIT_GATES.enum.find? (fun kg => entryTrue model e.vars.gS pos qubit kg.1) with
    | none => Except.ok acc
    | some kg =>
      if kg.2 = OpType.None then Except.ok acc
      else Except.ok (acc.1.emplace_back (Operation.singleQubit kg.2 qubit), acc.2 + 1)
  else
    Except.error (Error.noGateSelected pos qubit)

/-- Modelled from the spec: the loop of `extractSingleQubitGatesFromModel`
over a list of qubits, in order, stopping at the first abort. -/
def GateEncoder.extractSingleQubitGates {TableauVars : Type} (e : GateEncoder TableauVars)
    (pos : Nat) (model : Model) :
    List Nat → QuantumComputation × Nat → Except Error (QuantumComputation × Nat)
  | [], acc => Except.ok acc
  | qubit :: rest, acc =>
    match e.extractSingleQubitGate pos model acc qubit with
    | Except.error err => Except.error err
    | Except.ok acc1 => GateEncoder.extractSingleQubitGates e pos model rest acc1

/-- Modelled from the spec: `GateEncoder::extractSingleQubitGatesFromModel`
(declared in `GateEncoder.hpp`; its body is not among the sources): for
timestep `pos`, the qubits `0 .. N-1` in increasing order. -/
def GateEncoder.extractSingleQubitGatesFromModel {TableauVars : Type}
    (e : GateEncoder TableauVars) (pos : Nat) (model : Model)
    (qc : QuantumComputation) (nSingleQubitGates : Nat) :
    Except Error (QuantumComputation × Nat) :=
  e.extractSingleQubitGates pos model (List.range e.N) (qc, nSingleQubitGates)

/-- The ordered pairs `(ctrl, trgt)` of distinct qubits below `n`. -/
def orderedPairs (n : Nat) : List (Nat × Nat) :=
  ((List.range n).flatMap (fun ctrl => (List.range n).map (fun trgt => (ctrl, trgt)))).filter
    (fun p => p.1 ≠ p.2)

/-- Modelled from the spec: `GateEncoder::extractTwoQubitGatesFromModel`
(declared in `GateEncoder.hpp`; its body is not among the sources): for
timestep `pos`, the (at most one) true two-qubit variable is looked for and,
if present, the two-qubit gate with its control and target is appended to
the circuit and counted. -/
def GateEncoder.extractTwoQubitGatesFromModel {TableauVars : Type}
    (e : GateEncoder TableauVars) (pos : Nat) (model : Model)
    (qc : QuantumComputation) (nTwoQubitGates : Nat) : QuantumComputation × Nat :=
  match (orderedPairs e.N).find? (fun p => entryTrue model e.vars.gC pos p.1 p.2) with
  | none => (qc, nTwoQubitGates)
  | some p => (qc.emplace_back (Operation.twoQubit p.1 p.2), nTwoQubitGates + 1)

/-- Modelled from the spec: the loop of `extractCircuitFromModel` over a list
of timesteps, in order:
the single-qubit gates of the timestep, then its two-qubit gate. The state is
the circuit and the two running counts. -/
def GateEncoder.extractTimesteps {TableauVars : Type} (e : GateEncoder TableauVars)
    (model : Model) :
    List Nat → QuantumComputation × Nat × Nat → Except Error (QuantumComputation × Nat × Nat)
  | [], acc => Except.ok acc
  | pos :: rest, acc =>
    match e.extractSingleQubitGatesFromModel pos model acc.1 acc.2.1 with
    | Except.error err => Except.error err
    | Except.ok s1 =>
      let s2 := e.extractTwoQubitGatesFromModel pos model s1.1 acc.2.2
      GateEncoder.extractTimesteps e model rest (s2.1, s1.2, s2.2)

/-- Modelled from the spec: `GateEncoder::extractCircuitFromModel` (declared
in `GateEncoder.hpp`; its body is not among the sources): starting from an
empty circuit on `N` qubits, the timesteps `0 .. T-1` are walked in
increasing order; the counts and the circuit are then written to the
results. An abort leaves no result. -/
def GateEncoder.extractCircuitFromModel {TableauVars : Type} (e : GateEncoder TableauVars)
    (_res : Results) (model : Model) : Except Error Results :=
  match e.extractTimesteps model (List.range e.T) (⟨e.N, []⟩, 0, 0) with
  | Except.error err => Except.error err
  | Except.ok acc => Except.ok ⟨acc.2.1, acc.2.2, acc.1⟩

/-- Some selection variable of `(pos, qubit)` is true under the model: a
single-qubit kind variable `gS[pos][qubit][k]`, or a two-qubit variable with
`qubit` as control, `gC[pos][qubit][other]`, or as target,
`gC[pos][other][qubit]`, for another qubit `other`. -/
def GateEncoder.hasTrueSelection {TableauVars : Type} (e : GateEncoder TableauVars)
    (model : Model) (pos qubit : Nat) : Prop :=
  (∃ k, k < SINGLE_QUBIT_GATES.length ∧ entryTrue model e.vars.gS pos qubit k = true) ∨
  (∃ other, other ≠ qubit ∧ entryTrue model e.vars.gC pos qubit other = true) ∨
  (∃ other, other ≠ qubit ∧ entryTrue model e.vars.gC pos other qubit = true)

/-- An encoder for one qubit and one timestep whose single-qubit matrix holds
the variables 0 to 6 for the seven gate kinds and whose two-qubit matrix has
no entry (there is no pair of distinct qubits). -/
def oneQubitEncoder : GateEncoder Unit :=
  ⟨1, 1,
    ⟨[[[LogicTerm.var 0, LogicTerm.var 1, LogicTerm.var 2, LogicTerm.var 3,
        LogicTerm.var 4, LogicTerm.var 5, LogicTerm.var 6]]], [[[]]]⟩,
    (), ⟨[]⟩⟩

/-- The model in which every variable is false. -/
def allFalse : Model := fun _ => false

/-! ## Properties of the gate-kind lookup -/

/-- Unfolding of the loop at a counter inside the array. -/
theorem gateToIndexLoop_step (type : OpType) (i : Nat) (g : OpType)
    (hg : SINGLE_QUBIT_GATES.get? i = some g) :
    gateToIndexLoop type i =
      if g = type then Except.ok i else gateToIndexLoop type (i + 1) := by
  have hi : i < SINGLE_QUBIT_GATES.length := by
    rcases Nat.lt_or_ge i SINGLE_QUBIT_GATES.length with h | h
    · exact h
    · rw [List.get?_eq_none.mpr h] at hg
      cases hg
  rw [gateToIndexLoop]
  simp only [hi, if_true, arrayAt, hg]

/-- Unfolding of the loop at a counter past the array: `return 0`. -/
theorem gateToIndexLoop_done (type : OpType) (i : Nat)
    (hi : SINGLE_QUBIT_GATES.length ≤ i) :
    gateToIndexLoop type i = Except.ok 0 := by
  rw [gateToIndexLoop]
  simp only [Nat.not_lt.mpr hi, if_false]

/-- The loop never takes the error branch of `at`, from any counter. -/
theorem gateToIndexLoop_ok (type : OpType) (i : Nat) :
    ∃ r, gateToIndexLoop type i = Except.ok r ∧ r < SINGLE_QUBIT_GATES.length := by
  generalize h : SINGLE_QUBIT_GATES.length - i = n
  induction n generalizing i with
  | zero =>
    refine ⟨0, gateToIndexLoop_done type i (by omega), by decide⟩
  | succ n ih =>
    have hi : i < SINGLE_QUBIT_GATES.length := by omega
    obtain ⟨g, hg⟩ : ∃ g, SINGLE_QUBIT_GATES.get? i = some g :=
      ⟨SINGLE_QUBIT_GATES.get ⟨i, hi⟩, List.get?_eq_get hi⟩
    rw [gateToIndexLoop_step type i g hg]
    by_cases hgt : g = type
    · exact ⟨i, by simp [hgt], hi⟩
    · simp only [hgt, if_false]
      exact ih (i + 1) (by omega)

/-- The value of the lookup on each gate kind. -/
theorem gateToIndex_eval (g : OpType) :
    gateToIndex g = Except.ok
      (match g with
       | OpType.None => 0
       | OpType.X => 1
       | OpType.Y => 2
       | OpType.Z => 3
       | OpType.H => 4
       | OpType.S => 5
       | OpType.Sdag => 6
       | OpType.other _ => 0) := by
  cases g <;> simp [gateToIndex, gateToIndexLoop, arrayAt, SINGLE_QUBIT_GATES]

/-- C1: for every gate kind that is not one of the seven entries of
`SINGLE_QUBIT_GATES`, `gateToIndex` returns the index of the identity kind:
the result is 0, it is the result of `gateToIndex` on `None`, and the entry
of `SINGLE_QUBIT_GATES` at that index is `None`. -/
theorem gateToIndex_unregistered (g : OpType) (hg : g ∉ SINGLE_QUBIT_GATES) :
    ∃ i, gateToIndex g = Except.ok i ∧ i = 0 ∧
      gateToIndex g = gateToIndex OpType.None ∧
      arrayAt SINGLE_QUBIT_GATES i = Except.ok OpType.None := by
  refine ⟨0, ?_, rfl, ?_, by simp [arrayAt, SINGLE_QUBIT_GATES]⟩
  · rw [gateToIndex_eval]
    cases g <;> simp [SINGLE_QUBIT_GATES] at hg ⊢
  · rw [gateToIndex_eval, gateToIndex_eval]
    cases g <;> simp [SINGLE_QUBIT_GATES] at hg ⊢

/-- Witness of C1 at the unregistered kind `other 0`. -/
theorem gateToIndex_unregistered_witness :
    OpType.other 0 ∉ SINGLE_QUBIT_GATES ∧
    ∃ i, gateToIndex (OpType.other 0) = Except.ok i ∧ i = 0 ∧
      gateToIndex (OpType.other 0) = gateToIndex OpType.None ∧
      arrayAt SINGLE_QUBIT_GATES i = Except.ok OpType.None :=
  ⟨by decide, gateToIndex_unregistered (OpType.other 0) (by decide)⟩

/-- C2: `gateToIndex` is total and never fails: for every gate kind the
lookup returns an index (the bounds-checked access never reports
out-of-range, from whichever counter the loop is entered), and the index
returned is below the number of registered kinds, 7, so the gate-kind list
has an entry at it. -/
theorem gateToIndex_total (g : OpType) :
    (∃ i, gateToIndex g = Except.ok i ∧ i < SINGLE_QUBIT_GATES.length ∧
        SINGLE_QUBIT_GATES.length = 7 ∧
        ∃ k, arrayAt SINGLE_QUBIT_GATES i = Except.ok k) ∧
    (∀ e, gateToIndex g ≠ Except.error e) ∧
    (∀ start e, gateToIndexLoop g start ≠ Except.error e) := by
  refine ⟨?_, ?_, ?_⟩
  · obtain ⟨r, hr, hlt⟩ := gateToIndexLoop_ok g 0
    refine ⟨r, hr, hlt, rfl, SINGLE_QUBIT_GATES.get ⟨r, hlt⟩, ?_⟩
    simp only [arrayAt, List.get?_eq_get hlt]
  · intro e he
    obtain ⟨r, hr, _⟩ := gateToIndexLoop_ok g 0
    rw [gateToIndex, hr] at he
    cases he
  · intro start e he
    obtain ⟨r, hr, _⟩ := gateToIndexLoop_ok g start
    rw [hr] at he
    cases he

/-- C8: `gateToIndex` and the gate-kind list are mutually inverse on the
registered kinds: the lookup of the entry at index `i < 7` is `i`, the entry
at the lookup of a registered kind `g` is `g`, the seven entries are
pairwise distinct, and the lookup is injective on them. -/
theorem gateToIndex_inverse (i : Nat) (hi : i < 7) (g : OpType)
    (hg : g ∈ SINGLE_QUBIT_GATES) :
    (∃ k, arrayAt SINGLE_QUBIT_GATES i = Except.ok k ∧ gateToIndex k = Except.ok i) ∧
    (∃ j, gateToIndex g = Except.ok j ∧ arrayAt SINGLE_QUBIT_GATES j = Except.ok g) ∧
    SINGLE_QUBIT_GATES.Nodup ∧
    (∀ g2, g2 ∈ SINGLE_QUBIT_GATES → gateToIndex g = gateToIndex g2 → g = g2) := by
  refine ⟨?_, ?_, by decide, ?_⟩
  · interval_cases i <;>
      simp [gateToIndex, gateToIndexLoop, arrayAt, SINGLE_QUBIT_GATES]
  · cases g <;> simp [SINGLE_QUBIT_GATES] at hg <;>
      simp [gateToIndex, gateToIndexLoop, arrayAt, SINGLE_QUBIT_GATES]
  · intro g2 hg2 heq
    rw [gateToIndex_eval, gateToIndex_eval] at heq
    cases g <;> simp [SINGLE_QUBIT_GATES] at hg <;>
      cases g2 <;> simp [SINGLE_QUBIT_GATES] at hg2 <;> simp at heq ⊢

/-- Witness of C8 at index 4 and kind `Sdag`. -/
theorem gateToIndex_inverse_witness :
    (4 < 7 ∧ OpType.Sdag ∈ SINGLE_QUBIT_GATES) ∧
    ((∃ k, arrayAt SINGLE_QUBIT_GATES 4 = Except.ok k ∧ gateToIndex k = Except.ok 4) ∧
    (∃ j, gateToIndex OpType.Sdag = Except.ok j ∧
      arrayAt SINGLE_QUBIT_GATES j = Except.ok OpType.Sdag) ∧
    SINGLE_QUBIT_GATES.Nodup ∧
    (∀ g2, g2 ∈ SINGLE_QUBIT_GATES →
      gateToIndex OpType.Sdag = gateToIndex g2 → OpType.Sdag = g2)) :=
  ⟨⟨by decide, by decide⟩, gateToIndex_inverse 4 (by decide) OpType.Sdag (by decide)⟩

/-- C9: for every gate kind `g`, `gateToIndex g` is 0 exactly when `g` is the
identity kind `None` or is not a registered kind, and it lies in 1..6
exactly when `g` is one of X, Y, Z, H, S, Sdag; so the result 0 is shared by
the identity kind and an unsupported kind. -/
theorem gateToIndex_zero_iff (g : OpType) :
    (gateToIndex g = Except.ok 0 ↔ (g = OpType.None ∨ g ∉ SINGLE_QUBIT_GATES)) ∧
    ((∃ i, gateToIndex g = Except.ok i ∧ 1 ≤ i ∧ i ≤ 6) ↔
      g ∈ [OpType.X, OpType.Y, OpType.Z, OpType.H, OpType.S, OpType.Sdag]) ∧
    (∃ u, u ∉ SINGLE_QUBIT_GATES ∧ u ≠ OpType.None ∧
      gateToIndex u = gateToIndex OpType.None) := by
  refine ⟨?_, ?_, OpType.other 0, by decide, by decide, ?_⟩
  · rw [gateToIndex_eval]
    cases g <;> simp [SINGLE_QUBIT_GATES]
  · rw [gateToIndex_eval]
    cases g <;> simp
  · rw [gateToIndex_eval, gateToIndex_eval]

/-! ## Properties of `encodeGates` -/

/-- C3: for every encoder specialisation and every state, `encodeGates`
invokes `assertConsistency` once and then `assertGateConstraints` once, in
that order, and no other constraint builder (no symmetry-breaking builder):
it appends exactly `[assertConsistency, assertGateConstraints]` to the call
trace, and the state it leaves is the one `assertGateConstraints` produces
from the state `assertConsistency` produces. -/
theorem encodeGates_trace {σ : Type} (spec : Specialization σ) (s : Traced σ) :
    ∃ added : List Builder,
      (encodeGates spec s).trace = s.trace ++ added ∧
      added = [Builder.assertConsistency, Builder.assertGateConstraints] ∧
      added.count Builder.assertConsistency = 1 ∧
      added.count Builder.assertGateConstraints = 1 ∧
      Builder.encodeSymmetryBreakingConstraints ∉ added ∧
      (encodeGates spec s).state =
        spec.assertGateConstraints (spec.assertConsistency s.state) := by
  refine ⟨[Builder.assertConsistency, Builder.assertGateConstraints], ?_, rfl,
    by decide, by decide, by decide, rfl⟩
  simp [encodeGates, invoke]

/-! ## Properties of the constructor -/

/-- C4, as stated, fails: after the constructor has returned for `N = 1` and
`T = 1` the variable matrices are not fully populated. -/
theorem constructor_not_fullyPopulated :
    ¬ (GateEncoder.new 1 1 () (LogicBlock.mk [])).fullyPopulated := by
  decide

/-- C4, amended: for every `N` and `T`, immediately after the constructor has
returned the encoder stores `N` and `T` and both variable matrices `gS` and
`gC` are empty, no entry of them exists, and the logic block is the one
passed in; so the matrices are fully populated only when `N = 0` or
`T = 0`. -/
theorem constructor_vars_empty {TableauVars : Type} (nQubits timestepLimit : Nat)
    (tableauVars : TableauVars) (logicBlock : LogicBlock) :
    (GateEncoder.new nQubits timestepLimit tableauVars logicBlock).N = nQubits ∧
    (GateEncoder.new nQubits timestepLimit tableauVars logicBlock).T = timestepLimit ∧
    (GateEncoder.new nQubits timestepLimit tableauVars logicBlock).vars.gS = [] ∧
    (GateEncoder.new nQubits timestepLimit tableauVars logicBlock).vars.gC = [] ∧
    (GateEncoder.new nQubits timestepLimit tableauVars logicBlock).lb = logicBlock ∧
    (∀ i j k,
      lookup3D (GateEncoder.new nQubits timestepLimit tableauVars logicBlock).vars.gS
        i j k = none ∧
      lookup3D (GateEncoder.new nQubits timestepLimit tableauVars logicBlock).vars.gC
        i j k = none) ∧
    ((GateEncoder.new nQubits timestepLimit tableauVars logicBlock).fullyPopulated ↔
      (nQubits = 0 ∨ timestepLimit = 0)) := by
  refine ⟨rfl, rfl, rfl, rfl, rfl, fun i j k => ⟨rfl, rfl⟩, ?_⟩
  constructor
  · intro h
    by_contra hne
    have hN : 0 < nQubits := by omega
    have hT : 0 < timestepLimit := by omega
    have h0 := h.1 0 hT 0 hN 0 (by decide)
    simp [GateEncoder.new, lookup3D] at h0
  · intro h
    constructor
    · intro pos hpos qubit hq
      simp only [GateEncoder.new] at hpos hq
      omega
    · intro pos hpos ctrl hc
      simp only [GateEncoder.new] at hpos hc
      omega

/-! ## Properties of the exactly-one constraint -/

/-- The at-least-one formula is true exactly when some entry is true. -/
theorem eval_atLeastOne (m : Model) (vars : LogicVector) :
    (atLeastOne vars).eval m = true ↔ 0 < trueCount m vars := by
  induction vars with
  | nil => simp [atLeastOne, LogicTerm.eval, trueCount]
  | cons v rest ih =>
    simp only [atLeastOne, LogicTerm.eval, Bool.or_eq_true, ih, trueCount,
      List.countP_cons]
    by_cases hv : v.eval m = true
    · simp [hv]
    · simp [hv]

/-- The at-most-one formulas are all true exactly when at most one entry is
true. -/
theorem eval_atMostOne (m : Model) (vars : LogicVector) :
    (atMostOne vars).all (fun t => t.eval m) = true ↔ trueCount m vars ≤ 1 := by
  induction vars with
  | nil => simp [atMostOne, trueCount]
  | cons v rest ih =>
    simp only [atMostOne, List.all_append, Bool.and_eq_true, ih, trueCount,
      List.countP_cons, List.all_map]
    by_cases hv : v.eval m = true
    · have hzero : (rest.all ((fun t => t.eval m) ∘
          fun w => LogicTerm.neg (LogicTerm.and v w))) = true ↔
          List.countP (fun t => t.eval m) rest = 0 := by
        simp [List.all_eq_true, LogicTerm.eval, hv, List.countP_eq_zero]
      rw [hzero]
      simp only [hv, if_true]
      constructor
      · rintro ⟨h0, _⟩
        omega
      · intro h
        constructor <;> omega
    · have hall : (rest.all ((fun t => t.eval m) ∘
          fun w => LogicTerm.neg (LogicTerm.and v w))) = true := by
        simp [List.all_eq_true, LogicTerm.eval, hv]
      rw [hall]
      simp [hv]

/-- Asserting a list of formulas one after the other appends them. -/
theorem foldl_assertFormula (fs : List LogicTerm) (lb : LogicBlock) :
    (fs.foldl LogicBlock.assertFormula lb).clauses = lb.clauses ++ fs := by
  induction fs generalizing lb with
  | nil => simp
  | cons f rest ih => simp [ih, LogicBlock.assertFormula]

/-- C5: for every vector of Boolean variables and every truth assignment, the
constraint asserted by `assertExactlyOne` (the formulas it adds to the logic
block, the at-least-one and the at-most-one constraint) is satisfied by the
assignment if and only if precisely one variable of the vector is true; for
the empty vector it is unsatisfiable. -/
theorem assertExactlyOne_iff {TableauVars : Type} (e : GateEncoder TableauVars)
    (vars : LogicVector) (m : Model) :
    (e.assertExactlyOne vars).lb.clauses = e.lb.clauses ++ exactlyOneFormulas vars ∧
    ((exactlyOneFormulas vars).all (fun t => t.eval m) = true ↔ trueCount m vars = 1) ∧
    ((e.assertExactlyOne vars).lb.satisfiedBy m = true ↔
      (e.lb.satisfiedBy m = true ∧ trueCount m vars = 1)) ∧
    (e.assertExactlyOne []).lb.satisfiedBy m = false := by
  have hcl : ∀ vs : LogicVector,
      (e.assertExactlyOne vs).lb.clauses = e.lb.clauses ++ exactlyOneFormulas vs := by
    intro vs
    simp [GateEncoder.assertExactlyOne, foldl_assertFormula, LogicBlock.assertFormula,
      exactlyOneFormulas]
  have hone : (exactlyOneFormulas vars).all (fun t => t.eval m) = true ↔
      trueCount m vars = 1 := by
    simp only [exactlyOneFormulas, List.all_cons, Bool.and_eq_true, eval_atLeastOne,
      eval_atMostOne]
    omega
  refine ⟨hcl vars, hone, ?_, ?_⟩
  · simp only [LogicBlock.satisfiedBy, hcl vars, List.all_append, Bool.and_eq_true, hone]
  · simp [LogicBlock.satisfiedBy, hcl, exactlyOneFormulas, atLeastOne, atMostOne,
      LogicTerm.eval]

/-! ## Properties of the extraction -/

/-- An entry is true exactly when it exists and its term is true. -/
theorem entryTrue_iff (model : Model) (m : LogicMatrix3D) (i j k : Nat) :
    entryTrue model m i j k = true ↔
      ∃ t, lookup3D m i j k = some t ∧ t.eval model = true := by
  unfold entryTrue
  cases h : lookup3D m i j k with
  | none => simp
  | some t => simp

/-- An existing entry lies inside its row. -/
theorem lookup3D_lt_rowLength (m : LogicMatrix3D) (i j k : Nat) (t : LogicTerm)
    (h : lookup3D m i j k = some t) : k < rowLength m i j := by
  unfold lookup3D at h
  unfold rowLength
  cases hp : m.get? i with
  | none =>
    rw [hp] at h
    cases h
  | some plane =>
    rw [hp] at h
    cases hr : plane.get? j with
    | none =>
      simp only [hr] at h
      cases h
    | some row =>
      simp only [hr] at h ⊢
      exact (List.get?_eq_some.mp h).1

/-- An existing entry lies in one of the rows of its plane. -/
theorem lookup3D_lt_planeRows (m : LogicMatrix3D) (i j k : Nat) (t : LogicTerm)
    (h : lookup3D m i j k = some t) : j < planeRows m i := by
  unfold lookup3D at h
  unfold planeRows
  cases hp : m.get? i with
  | none =>
    rw [hp] at h
    cases h
  | some plane =>
    rw [hp] at h
    cases hr : plane.get? j with
    | none =>
      simp only [hr] at h
      cases h
    | some row => exact (List.get?_eq_some.mp hr).1

/-- The collected selection variables of `(pos, qubit)` contain a true one
exactly when some selection variable of `(pos, qubit)` is true. -/
theorem selection_any_iff {TableauVars : Type} (e : GateEncoder TableauVars)
    (model : Model) (pos qubit : Nat) :
    (e.vars.collectTwoQubitGateVariables pos qubit true
      (e.vars.collectTwoQubitGateVariables pos qubit false
        (e.vars.collectSingleQubitGateVariables pos qubit []))).any
      (fun t => t.eval model) = true ↔ e.hasTrueSelection model pos qubit := by
  simp only [Variables.collectTwoQubitGateVariables, Variables.collectSingleQubitGateVariables,
    if_true, Bool.false_eq_true, if_false, List.nil_append, List.any_append,
    Bool.or_eq_true, List.any_eq_true, List.mem_filterMap, List.mem_range,
    GateEncoder.hasTrueSelection, entryTrue_iff]
  constructor
  · rintro ((⟨t, ⟨k, hk, hkt⟩, ht⟩ | ⟨t, ⟨o, _, hot⟩, ht⟩) | ⟨t, ⟨o, _, hot⟩, ht⟩)
    · exact Or.inl ⟨k, hk, t, hkt, ht⟩
    · by_cases ho : o = qubit
      · simp [ho] at hot
      · simp only [ho, if_false] at hot
        exact Or.inr (Or.inl ⟨o, ho, t, hot, ht⟩)
    · by_cases ho : o = qubit
      · simp [ho] at hot
      · simp only [ho, if_false] at hot
        exact Or.inr (Or.inr ⟨o, ho, t, hot, ht⟩)
  · rintro (⟨k, hk, t, hkt, ht⟩ | ⟨o, ho, t, hot, ht⟩ | ⟨o, ho, t, hot, ht⟩)
    · exact Or.inl (Or.inl ⟨t, ⟨k, hk, hkt⟩, ht⟩)
    · refine Or.inl (Or.inr ⟨t, ⟨o, lookup3D_lt_rowLength _ _ _ _ t hot, ?_⟩, ht⟩)
      simp only [ho, if_false, hot]
    · refine Or.inr ⟨t, ⟨o, lookup3D_lt_planeRows _ _ _ _ t hot, ?_⟩, ht⟩
      simp only [ho, if_false, hot]

/-- The step for one qubit returns exactly when the qubit has a true selection
variable, and aborts otherwise. -/
theorem extractSingleQubitGate_ok_iff {TableauVars : Type} (e : GateEncoder TableauVars)
    (pos : Nat) (model : Model) (acc : QuantumComputation × Nat) (qubit : Nat) :
    ((∃ r, e.extractSingleQubitGate pos model acc qubit = Except.ok r) ↔
      e.hasTrueSelection model pos qubit) ∧
    (¬ e.hasTrueSelection model pos qubit →
      e.extractSingleQubitGate pos model acc qubit =
        Except.error (Error.noGateSelected pos qubit)) := by
  have hsel := selection_any_iff e model pos qubit
  unfold GateEncoder.extractSingleQubitGate
  by_cases h : e.hasTrueSelection model pos qubit
  · simp only [hsel.mpr h, if_true]
    refine ⟨⟨fun _ => h, fun _ => ?_⟩, fun hn => absurd h hn⟩
    cases SINGLE_QUBIT_GATES.enum.find?
        (fun kg => entryTrue model e.vars.gS pos qubit kg.1) with
    | none => exact ⟨acc, rfl⟩
    | some kg =>
      by_cases hk : kg.2 = OpType.None
      · exact ⟨acc, by simp only [hk, if_true]⟩
      · exact ⟨(acc.1.emplace_back (Operation.singleQubit kg.2 qubit), acc.2 + 1),
          by simp only [hk, if_false]⟩
  · have hf : ¬ ((e.vars.collectTwoQubitGateVariables pos qubit true
        (e.vars.collectTwoQubitGateVariables pos qubit false
          (e.vars.collectSingleQubitGateVariables pos qubit []))).any
        (fun t => t.eval model) = true) := fun hc => h (hsel.mp hc)
    simp only [hf, if_false]
    refine ⟨⟨?_, fun hh => absurd hh h⟩, fun _ => rfl⟩
    rintro ⟨r, hr⟩
    cases hr

/-- The loop over a list of qubits returns exactly when every qubit of the
list has a true selection variable. -/
theorem extractSingleQubitGates_ok_iff {TableauVars : Type} (e : GateEncoder TableauVars)
    (pos : Nat) (model : Model) (qubits : List Nat) (acc : QuantumComputation × Nat) :
    (∃ r, e.extractSingleQubitGates pos model qubits acc = Except.ok r) ↔
      ∀ qubit, qubit ∈ qubits → e.hasTrueSelection model pos qubit := by
  induction qubits generalizing acc with
  | nil => simp [GateEncoder.extractSingleQubitGates]
  | cons q rest ih =>
    have hstep := extractSingleQubitGate_ok_iff e pos model acc q
    simp only [GateEncoder.extractSingleQubitGates, List.mem_cons, forall_eq_or_imp]
    cases hq : e.extractSingleQubitGate pos model acc q with
    | error err =>
      have hno : ¬ e.hasTrueSelection model pos q := by
        intro hhas
        obtain ⟨r, hr⟩ := hstep.1.mpr hhas
        rw [hq] at hr
        cases hr
      constructor
      · rintro ⟨r, hr⟩
        cases hr
      · rintro ⟨hhas, _⟩
        exact absurd hhas hno
    | ok acc1 =>
      have hhas : e.hasTrueSelection model pos q := hstep.1.mp ⟨acc1, hq⟩
      simp only [ih acc1, hhas, true_and]

/-- The loop over a list of timesteps returns exactly when every qubit below
`N` has a true selection variable at every timestep of the list. -/
theorem extractTimesteps_ok_iff {TableauVars : Type} (e : GateEncoder TableauVars)
    (model : Model) (steps : List Nat) (acc : QuantumComputation × Nat × Nat) :
    (∃ r, e.extractTimesteps model steps acc = Except.ok r) ↔
      ∀ pos, pos ∈ steps → ∀ qubit, qubit < e.N → e.hasTrueSelection model pos qubit := by
  induction steps generalizing acc with
  | nil => simp [GateEncoder.extractTimesteps]
  | cons p rest ih =>
    have hstep := extractSingleQubitGates_ok_iff e p model (List.range e.N) (acc.1, acc.2.1)
    simp only [List.mem_range] at hstep
    simp only [GateEncoder.extractTimesteps, List.mem_cons, forall_eq_or_imp,
      GateEncoder.extractSingleQubitGatesFromModel]
    cases hq : e.extractSingleQubitGates p model (List.range e.N) (acc.1, acc.2.1) with
    | error err =>
      have hno : ¬ ∀ qubit, qubit < e.N → e.hasTrueSelection model p qubit := by
        intro hall
        obtain ⟨r, hr⟩ := hstep.mpr hall
        rw [hq] at hr
        cases hr
      constructor
      · rintro ⟨r, hr⟩
        cases hr
      · rintro ⟨hall, _⟩
        exact absurd hall hno
    | ok s1 =>
      have hall : ∀ qubit, qubit < e.N → e.hasTrueSelection model p qubit :=
        hstep.mp ⟨s1, hq⟩
      simp only [ih, true_and]
      constructor
      · intro h
        exact ⟨hall, h⟩
      · intro h
        exact h.2

/-- Extraction returns a circuit exactly when every `(pos, qubit)` with
`pos < T` and `qubit < N` has a true selection variable. -/
theorem extractCircuitFromModel_ok_iff {TableauVars : Type} (e : GateEncoder TableauVars)
    (res : Results) (model : Model) :
    (∃ r, e.extractCircuitFromModel res model = Except.ok r) ↔
      ∀ pos, pos < e.T → ∀ qubit, qubit < e.N → e.hasTrueSelection model pos qubit := by
  have h := extractTimesteps_ok_iff e model (List.range e.T) (⟨e.N, []⟩, 0, 0)
  simp only [List.mem_range] at h
  rw [← h]
  unfold GateEncoder.extractCircuitFromModel
  cases e.extractTimesteps model (List.range e.T) (⟨e.N, []⟩, 0, 0) with
  | error err =>
    constructor
    · rintro ⟨r, hr⟩
      cases hr
    · rintro ⟨r, hr⟩
      cases hr
  | ok acc =>
    constructor
    · intro _
      exact ⟨acc, rfl⟩
    · intro _
      exact ⟨_, rfl⟩

/-- C6: for every model in which some `(pos, qubit)` with `pos < T` and
`qubit < N` has no true selection variable (no single-qubit kind variable and
no two-qubit control or target variable is true), `extractCircuitFromModel`
aborts instead of returning a circuit; and whenever it returns a circuit,
every `(pos, qubit)` with `pos < T` and `qubit < N` has a true selection
variable. -/
theorem extractCircuitFromModel_aborts {TableauVars : Type} (e : GateEncoder TableauVars)
    (res : Results) (model : Model) :
    (∀ pos qubit, pos < e.T → qubit < e.N → ¬ e.hasTrueSelection model pos qubit →
      (∃ err, e.extractCircuitFromModel res model = Except.error err) ∧
      ∀ r, e.extractCircuitFromModel res model ≠ Except.ok r) ∧
    (∀ r, e.extractCircuitFromModel res model = Except.ok r →
      ∀ pos qubit, pos < e.T → qubit < e.N → e.hasTrueSelection model pos qubit) := by
  have hiff := extractCircuitFromModel_ok_iff e res model
  constructor
  · intro pos qubit hpos hq hno
    have hnot : ∀ r, e.extractCircuitFromModel res model ≠ Except.ok r := by
      intro r hr
      exact hno (hiff.mp ⟨r, hr⟩ pos hpos qubit hq)
    refine ⟨?_, hnot⟩
    cases hres : e.extractCircuitFromModel res model with
    | error err => exact ⟨err, rfl⟩
    | ok r => exact absurd hres (hnot r)
  · intro r hr pos qubit hpos hq
    exact hiff.mp ⟨r, hr⟩ pos hpos qubit hq

/-- Witness of C6: the one-qubit, one-timestep encoder and the model in which
every variable is false; qubit 0 has no true selection variable at timestep 0
and extraction aborts. -/
theorem extractCircuitFromModel_aborts_witness :
    (0 < oneQubitEncoder.T ∧ 0 < oneQubitEncoder.N ∧
      ¬ oneQubitEncoder.hasTrueSelection allFalse 0 0) ∧
    ((∃ err, oneQubitEncoder.extractCircuitFromModel ⟨0, 0, ⟨1, []⟩⟩ allFalse =
        Except.error err) ∧
      ∀ r, oneQubitEncoder.extractCircuitFromModel ⟨0, 0, ⟨1, []⟩⟩ allFalse ≠
        Except.ok r) := by
  have hno : ¬ oneQubitEncoder.hasTrueSelection allFalse 0 0 := by
    unfold GateEncoder.hasTrueSelection
    rintro (⟨k, hk, h⟩ | ⟨o, ho, h⟩ | ⟨o, ho, h⟩)
    · simp only [SINGLE_QUBIT_GATES, List.length] at hk
      interval_cases k <;>
        simp [entryTrue, lookup3D, oneQubitEncoder, allFalse, LogicTerm.eval] at h
    · simp [entryTrue, lookup3D, oneQubitEncoder] at h
    · cases o with
      | zero => exact ho rfl
      | succ n => simp [entryTrue, lookup3D, oneQubitEncoder] at h
  exact ⟨⟨by decide, by decide, hno⟩,
    (extractCircuitFromModel_aborts oneQubitEncoder ⟨0, 0, ⟨1, []⟩⟩ allFalse).1 0 0
      (by decide) (by decide) hno⟩

end cs.encoding
